import Mathlib

/-!
Shallow embedding of `src/blender/addons/distribution_manager.py`:
the classes `DistributionItem`, `WeightedDistribution` and
`DistributionConfig` and their operations.

Modelling choices:
* Python floats are modelled as exact rationals (`ℚ`).
* The process-global pseudo-random generator (`random.seed`,
  `Random._randbelow`, `random.random`) is modelled by an abstract state
  type `S` threaded through `sample`; the primitive draws are supplied by
  a `PyRandom` structure.  `random.seed(z)` is modelled by replacing the
  current state with `seedFn z`.
* Python dictionaries used as import/export payloads are modelled by
  structures with `Option` fields (`none` = key absent); `data["k"]` on a
  missing key raises, modelled as an `Except` error.
* Python dictionaries used as result mappings (`get_expected_counts`)
  are modelled as insertion-ordered association lists with key update in
  place (`upsert`), exactly the observable behaviour of dict assignment.
-/

/-- Single item in a distribution (part or color) with weight
(`DistributionItem`): fields `id`, `name`, `weight`. -/
structure DistributionItem where
  id : String
  name : String
  weight : ℚ
deriving DecidableEq, Inhabited

/-- `DistributionItem.__init__(id, name, weight=1.0)`:
`self.weight = max(0.0, weight)` clamps a negative weight to 0. -/
def DistributionItem.init (id name : String) (weight : ℚ := 1) : DistributionItem :=
  { id := id, name := name, weight := max 0 weight }

/-- The mapping produced/consumed by `DistributionItem.to_dict/from_dict`;
`none` means the key is absent. -/
structure ItemDict where
  id : Option String
  name : Option String
  weight : Option ℚ
deriving DecidableEq, Inhabited

/-- Error raised on import when a required key is absent (the spec's
`MissingFieldError`; in the Python source the lookup `data["k"]` raises
a `KeyError` carrying the key). -/
inductive MissingFieldError where
  | missing (key : String)
deriving DecidableEq

/-- `DistributionItem.to_dict`. -/
def DistributionItem.to_dict (x : DistributionItem) : ItemDict :=
  { id := some x.id, name := some x.name, weight := some x.weight }

/-- `DistributionItem.from_dict`:
`cls(data["id"], data["name"], data.get("weight", 1.0))`.
Arguments evaluate left to right, so a missing `id` is reported before a
missing `name`. -/
def DistributionItem.from_dict (data : ItemDict) : Except MissingFieldError DistributionItem :=
  match data.id with
  | none => .error (.missing "id")
  | some i =>
    match data.name with
    | none => .error (.missing "name")
    | some n => .ok (DistributionItem.init i n (data.weight.getD 1))

/-- Ordered collection of items (`WeightedDistribution`). -/
structure WeightedDistribution where
  items : List DistributionItem
deriving DecidableEq, Inhabited

/-- `WeightedDistribution.add_item`: appends `DistributionItem(id, name, weight)`. -/
def WeightedDistribution.add_item (d : WeightedDistribution) (id name : String)
    (weight : ℚ := 1) : WeightedDistribution :=
  { items := d.items ++ [DistributionItem.init id name weight] }

/-- `WeightedDistribution.remove_item`: keeps the items whose id differs. -/
def WeightedDistribution.remove_item (d : WeightedDistribution) (id : String) :
    WeightedDistribution :=
  { items := d.items.filter (fun item => item.id ≠ id) }

/-- `WeightedDistribution.get_item`: first item with matching id, else `None`. -/
def WeightedDistribution.get_item (d : WeightedDistribution) (id : String) :
    Option DistributionItem :=
  d.items.find? (fun item => item.id == id)

/-- Functional rendering of `set_weight`: the first item whose id matches
gets `weight = max(0.0, weight)` in place, the rest of the list is kept. -/
def setFirstWeight : List DistributionItem → String → ℚ → List DistributionItem
  | [], _, _ => []
  | x :: xs, id, w =>
    if x.id = id then { x with weight := max 0 w } :: xs
    else x :: setFirstWeight xs id w

/-- `WeightedDistribution.set_weight`: `item = self.get_item(id)`; if found,
`item.weight = max(0.0, weight)` (mutates the first match); no-op otherwise. -/
def WeightedDistribution.set_weight (d : WeightedDistribution) (id : String) (w : ℚ) :
    WeightedDistribution :=
  { items := setFirstWeight d.items id w }

/-- Sum of the member weights, `sum(item.weight for item in self.items)`. -/
def WeightedDistribution.totalWeight (d : WeightedDistribution) : ℚ :=
  (d.items.map (fun item => item.weight)).sum

/-- `WeightedDistribution.get_normalized_weights`: `[]` when the total is 0,
else each weight divided by the total. -/
def WeightedDistribution.get_normalized_weights (d : WeightedDistribution) : List ℚ :=
  if d.totalWeight = 0 then []
  else d.items.map (fun item => item.weight / d.totalWeight)

/-- Abstract model of the process-global generator of Python's `random`
module: `seedFn` models `random.seed`, `randbelow s n` models
`Random._randbelow(n)` (contract: a value `< n` when `0 < n`), `randfloat`
models `random.random()` (a value in `[0, 1)`). -/
structure PyRandom (S : Type) where
  seedFn : Int → S
  randbelow : S → Nat → Nat × S
  randfloat : S → ℚ × S

/-- `random.choice(seq)` = `seq[self._randbelow(len(seq))]`; raises on an
empty sequence.  The index is within range whenever `randbelow` meets its
contract, so `getD` with a default is only a totalization of `seq[i]`. -/
def pyChoice {S : Type} (g : PyRandom S) (seq : List DistributionItem) (s : S) :
    Except String (DistributionItem × S) :=
  if seq.isEmpty then .error "IndexError: cannot choose from an empty sequence"
  else
    let p := g.randbelow s seq.length
    .ok (seq.getD p.1 default, p.2)

/-- `itertools.accumulate`: running partial sums starting from `acc`. -/
def accumulate (acc : ℚ) : List ℚ → List ℚ
  | [] => []
  | x :: xs => (acc + x) :: accumulate (acc + x) xs

/-- `bisect.bisect_right(a, x, lo, hi)`: binary search loop
`while lo < hi: mid = (lo+hi)//2; if x < a[mid]: hi = mid else: lo = mid+1`.
All accesses `a[mid]` in the uses below are within range, so `getD`. -/
def bisectRight (a : List ℚ) (x : ℚ) (lo hi : Nat) : Nat :=
  if _h : lo < hi then
    let mid := (lo + hi) / 2
    if x < a.getD mid 0 then bisectRight a x lo mid
    else bisectRight a x (mid + 1) hi
  else lo
termination_by hi - lo
decreasing_by all_goals omega

/-- The draw loop of `random.choices`:
`[population[bisect(cum_weights, random() * total, 0, hi)] for i in _repeat(None, k)]`. -/
def drawLoop {S : Type} (g : PyRandom S) (population : List DistributionItem)
    (cum : List ℚ) (total : ℚ) (hi : Nat) : Nat → S → List DistributionItem × S
  | 0, s => ([], s)
  | k + 1, s =>
    let p := g.randfloat s
    let x := population.getD (bisectRight cum (p.1 * total) 0 hi) default
    let rest := drawLoop g population cum total hi k p.2
    (x :: rest.1, rest.2)

/-- `random.choices(population, weights=weights, k=k)`, weighted branch of
CPython's implementation: build cumulative weights, check their number
against the population, check the total is positive, then draw `k` items
(none when `k < 0`, as `_repeat(None, k)` is then empty). -/
def pyChoices {S : Type} (g : PyRandom S) (population : List DistributionItem)
    (weights : List ℚ) (k : Int) (s : S) : Except String (List DistributionItem × S) :=
  if weights.length ≠ population.length then
    .error "ValueError: the number of weights does not match the population"
  else
    match (accumulate 0 weights).getLast? with
    | none => .error "IndexError: list index out of range"
    | some total =>
      if total ≤ 0 then .error "ValueError: total of weights must be greater than zero"
      else .ok (drawLoop g population (accumulate 0 weights) total
          (population.length - 1) k.toNat s)

/-- The uniform fallback loop of `sample`:
`[random.choice(self.items) for _ in range(count)]` (empty when `count < 0`). -/
def uniformLoop {S : Type} (g : PyRandom S) (items : List DistributionItem) :
    Nat → S → Except String (List DistributionItem × S)
  | 0, s => .ok ([], s)
  | k + 1, s =>
    match pyChoice g items s with
    | .error e => .error e
    | .ok (x, s1) =>
      match uniformLoop g items k s1 with
      | .error e => .error e
      | .ok (l, s2) => .ok (x :: l, s2)

/-- Body of `sample` after the reseed: compute normalized weights and
either sample uniformly (degenerate all-zero-weight case) or via
`random.choices` with the normalized weights. -/
def sampleBody {S : Type} (g : PyRandom S) (d : WeightedDistribution)
    (count : Int) (s1 : S) : Except String (List DistributionItem × S) :=
  if d.get_normalized_weights.isEmpty then uniformLoop g d.items count.toNat s1
  else pyChoices g d.items d.get_normalized_weights count s1

/-- `WeightedDistribution.sample(count, seed)`: return `[]` on an empty
distribution; else reseed the global generator when a seed is given and run
`sampleBody` on the resulting state. -/
def WeightedDistribution.sample {S : Type} (g : PyRandom S) (d : WeightedDistribution)
    (count : Int) (seed : Option Int) (s : S) : Except String (List DistributionItem × S) :=
  if d.items.isEmpty then .ok ([], s)
  else
    sampleBody g d count (match seed with
      | some z => g.seedFn z
      | none => s)

/-- Python's `round` on the exact value: round half to even. -/
def roundHalfEven (x : ℚ) : Int :=
  let f := Int.floor x
  let frac := x - f
  if frac < 1 / 2 then f
  else if 1 / 2 < frac then f + 1
  else if f % 2 = 0 then f else f + 1

/-- Assignment `counts[k] = v` on an insertion-ordered dict rendered as an
association list: overwrite the existing key in place, else append. -/
def upsert : List (String × Int) → String → Int → List (String × Int)
  | [], k, v => [(k, v)]
  | (k1, v1) :: rest, k, v =>
    if k1 = k then (k1, v) :: rest else (k1, v1) :: upsert rest k v

/-- Dict lookup `m[a]` as an option. -/
def dictFind : List (String × Int) → String → Option Int
  | [], _ => none
  | (k, v) :: rest, a => if k = a then some v else dictFind rest a

/-- `WeightedDistribution.get_expected_counts(total)`: `{}` when
normalization is degenerate, else `counts[item.id] = int(round(nw * total))`
for each `(item, nw)` in `zip(self.items, normalized)`. -/
def WeightedDistribution.get_expected_counts (d : WeightedDistribution) (total : Int) :
    List (String × Int) :=
  let normalized := d.get_normalized_weights
  if normalized.isEmpty then []
  else
    (d.items.zip normalized).foldl
      (fun counts p => upsert counts p.1.id (roundHalfEven (p.2 * total))) []

/-- The mapping produced/consumed by `WeightedDistribution.to_dict/from_dict`. -/
structure DistDict where
  items : Option (List ItemDict)
deriving DecidableEq, Inhabited

/-- `WeightedDistribution.to_dict`. -/
def WeightedDistribution.to_dict (d : WeightedDistribution) : DistDict :=
  { items := some (d.items.map DistributionItem.to_dict) }

/-- `WeightedDistribution.from_dict`: requires the `items` key, then imports
each item in order (the first failing item aborts the import). -/
def WeightedDistribution.from_dict (data : DistDict) :
    Except MissingFieldError WeightedDistribution :=
  match data.items with
  | none => .error (.missing "items")
  | some l =>
    match l.mapM DistributionItem.from_dict with
    | .error e => .error e
    | .ok items => .ok { items := items }

/-- Part and color distributions plus a draw count and an optional seed
(`DistributionConfig`). -/
structure DistributionConfig where
  part_distribution : WeightedDistribution
  color_distribution : WeightedDistribution
  total_pieces : Int
  seed : Option Int
deriving DecidableEq, Inhabited

/-- `DistributionConfig.generate_part_color_pairs`: sample `total_pieces`
parts with `seed`, then `total_pieces` colors with `seed + 1` when a seed is
given (else unseeded), and zip the id sequences positionally. -/
def DistributionConfig.generate_part_color_pairs {S : Type} (g : PyRandom S)
    (cfg : DistributionConfig) (s : S) : Except String (List (String × String) × S) :=
  match cfg.part_distribution.sample g cfg.total_pieces cfg.seed s with
  | .error e => .error e
  | .ok (parts, s1) =>
    match cfg.color_distribution.sample g cfg.total_pieces
        (cfg.seed.map (fun z => z + 1)) s1 with
    | .error e => .error e
    | .ok (colors, s2) =>
      .ok ((parts.zip colors).map (fun pc => (pc.1.id, pc.2.id)), s2)

/-- The mapping produced/consumed by `DistributionConfig.to_dict/from_dict`.
The `seed` field is `Option (Option Int)`: outer `none` = key absent, inner
`none` = JSON null; `data.get("seed")` conflates both, modelled by `join`. -/
structure ConfigDict where
  parts : Option DistDict
  colors : Option DistDict
  total_pieces : Option Int
  seed : Option (Option Int)
deriving DecidableEq, Inhabited

/-- `DistributionConfig.to_dict`. -/
def DistributionConfig.to_dict (c : DistributionConfig) : ConfigDict :=
  { parts := some c.part_distribution.to_dict
    colors := some c.color_distribution.to_dict
    total_pieces := some c.total_pieces
    seed := some c.seed }

/-- `DistributionConfig.from_dict`: requires `parts` and `colors` (in that
evaluation order), defaults `total_pieces` to 100 and `seed` to `None`. -/
def DistributionConfig.from_dict (data : ConfigDict) :
    Except MissingFieldError DistributionConfig :=
  match data.parts with
  | none => .error (.missing "parts")
  | some p =>
    match WeightedDistribution.from_dict p with
    | .error e => .error e
    | .ok pd =>
      match data.colors with
      | none => .error (.missing "colors")
      | some c =>
        match WeightedDistribution.from_dict c with
        | .error e => .error e
        | .ok cd =>
          .ok { part_distribution := pd, color_distribution := cd,
                total_pieces := data.total_pieces.getD 100,
                seed := data.seed.join }

/-- Reachability invariant: every stored weight is non-negative. -/
def WF (d : WeightedDistribution) : Prop :=
  ∀ x ∈ d.items, 0 ≤ x.weight

instance (d : WeightedDistribution) : Decidable (WF d) :=
  inferInstanceAs (Decidable (∀ x ∈ d.items, 0 ≤ x.weight))

/-- A concrete instance of the abstract generator, used to evaluate the
theorems at concrete inputs: `randbelow` takes the state modulo the bound. -/
def natGen : PyRandom Nat where
  seedFn z := z.toNat
  randbelow s n := (s % n, s + 1)
  randfloat s := (((s % 7 : Nat) : ℚ) / 7, s + 1)

/-- A small concrete distribution with positive total weight. -/
def demoDist : WeightedDistribution :=
  { items := [DistributionItem.init "3001" "Brick 2x4" 1,
              DistributionItem.init "3003" "Brick 2x2" (9 / 10)] }

/-- A concrete distribution whose weights are all zero. -/
def zeroDist : WeightedDistribution :=
  { items := [DistributionItem.init "A" "Alpha" 0,
              DistributionItem.init "B" "Beta" 0] }

/-- A concrete distribution with duplicate ids. -/
def dupDist : WeightedDistribution :=
  { items := [DistributionItem.init "a" "x" 1,
              DistributionItem.init "b" "y" 2,
              DistributionItem.init "a" "z" 3] }

/-! Helper lemmas about normalization. -/

lemma list_sum_map_div (l : List ℚ) (T : ℚ) :
    (l.map (fun x => x / T)).sum = l.sum / T := by
  induction l with
  | nil => simp
  | cons x xs ih => simp [ih, add_div]

lemma normalized_length (d : WeightedDistribution) (h : d.totalWeight ≠ 0) :
    d.get_normalized_weights.length = d.items.length := by
  simp [WeightedDistribution.get_normalized_weights, h]

lemma normalized_sum_one (d : WeightedDistribution) (h : d.totalWeight ≠ 0) :
    d.get_normalized_weights.sum = 1 := by
  unfold WeightedDistribution.get_normalized_weights
  rw [if_neg h]
  have hm : d.items.map (fun item => item.weight / d.totalWeight)
      = (d.items.map (fun item => item.weight)).map (fun x => x / d.totalWeight) := by
    rw [List.map_map]
    rfl
  rw [hm, list_sum_map_div]
  exact div_self h

lemma totalWeight_eq_zero_of_nil (d : WeightedDistribution) (h : d.items = []) :
    d.totalWeight = 0 := by
  simp [WeightedDistribution.totalWeight, h]

lemma normalized_eq_nil_iff (d : WeightedDistribution) :
    d.get_normalized_weights = [] ↔ d.totalWeight = 0 := by
  unfold WeightedDistribution.get_normalized_weights
  by_cases h : d.totalWeight = 0
  · simp [h]
  · rw [if_neg h]
    simp only [List.map_eq_nil_iff]
    constructor
    · intro hi
      exact absurd (totalWeight_eq_zero_of_nil d hi) h
    · intro h0
      exact absurd h0 h

/-- C5: for a distribution with strictly positive total weight,
`get_normalized_weights` has one entry per item, namely the item weight
divided by the total, and the entries sum to 1; when the total weight is 0
(in particular for the empty distribution) it returns the empty list. -/
theorem normalized_weights_spec (d : WeightedDistribution) :
    (0 < d.totalWeight →
      d.get_normalized_weights.length = d.items.length ∧
      (∀ i, i < d.items.length →
        d.get_normalized_weights.getD i 0 =
          (d.items.getD i default).weight / d.totalWeight) ∧
      d.get_normalized_weights.sum = 1) ∧
    (d.totalWeight = 0 → d.get_normalized_weights = []) := by
  constructor
  · intro h
    have hne : d.totalWeight ≠ 0 := ne_of_gt h
    refine ⟨normalized_length d hne, ?_, normalized_sum_one d hne⟩
    intro i hi
    unfold WeightedDistribution.get_normalized_weights
    rw [if_neg hne]
    have hi2 : i < (d.items.map (fun item => item.weight / d.totalWeight)).length := by
      simpa using hi
    rw [List.getD_eq_getElem _ _ hi2, List.getElem_map, List.getD_eq_getElem _ _ hi]
  · intro h
    simp [WeightedDistribution.get_normalized_weights, h]

/-- Witness for C5 at concrete inputs. -/
theorem normalized_weights_spec_witness :
    (demoDist.get_normalized_weights.length = demoDist.items.length ∧
      (∀ i, i < demoDist.items.length →
        demoDist.get_normalized_weights.getD i 0 =
          (demoDist.items.getD i default).weight / demoDist.totalWeight) ∧
      demoDist.get_normalized_weights.sum = 1) ∧
    zeroDist.get_normalized_weights = [] :=
  ⟨(normalized_weights_spec demoDist).1 (by
      norm_num [demoDist, WeightedDistribution.totalWeight, DistributionItem.init]),
   (normalized_weights_spec zeroDist).2 (by
      norm_num [zeroDist, WeightedDistribution.totalWeight, DistributionItem.init])⟩

/-! Helper lemmas for the weight invariant. -/

lemma setFirstWeight_WF (l : List DistributionItem) (i : String) (w : ℚ)
    (h : ∀ y ∈ l, 0 ≤ y.weight) : ∀ x ∈ setFirstWeight l i w, 0 ≤ x.weight := by
  induction l with
  | nil => simp [setFirstWeight]
  | cons y ys ih =>
    intro x hx
    by_cases hy : y.id = i
    · simp only [setFirstWeight, if_pos hy, List.mem_cons] at hx
      rcases hx with h1 | h2
      · rw [h1]
        exact le_max_left 0 w
      · exact h x (List.mem_cons_of_mem y h2)
    · simp only [setFirstWeight, if_neg hy, List.mem_cons] at hx
      rcases hx with h1 | h2
      · rw [h1]
        exact h y (List.mem_cons_self y ys)
      · exact ih (fun z hz => h z (List.mem_cons_of_mem y hz)) x h2

lemma item_from_dict_weight (m : ItemDict) (x : DistributionItem)
    (h : DistributionItem.from_dict m = .ok x) : 0 ≤ x.weight := by
  unfold DistributionItem.from_dict at h
  cases hid : m.id with
  | none => rw [hid] at h; exact absurd h (by simp)
  | some i =>
    cases hname : m.name with
    | none => rw [hid, hname] at h; exact absurd h (by simp)
    | some n =>
      rw [hid, hname] at h
      simp only [Except.ok.injEq] at h
      rw [← h]
      exact le_max_left 0 _

lemma mapM_from_dict_WF (l : List ItemDict) :
    ∀ items, l.mapM DistributionItem.from_dict = .ok items →
      ∀ x ∈ items, 0 ≤ x.weight := by
  induction l with
  | nil =>
    intro items h
    rw [List.mapM_nil] at h
    cases h
    simp
  | cons m ms ih =>
    intro items h
    rw [List.mapM_cons] at h
    cases hm : DistributionItem.from_dict m with
    | error e =>
      rw [hm] at h
      exact absurd h (by intro hh; exact Except.noConfusion hh)
    | ok x =>
      rw [hm] at h
      replace h : (ms.mapM DistributionItem.from_dict >>= fun xs =>
          pure (x :: xs) : Except MissingFieldError _) = .ok items := h
      cases hms : ms.mapM DistributionItem.from_dict with
      | error e =>
        rw [hms] at h
        exact absurd h (by intro hh; exact Except.noConfusion hh)
      | ok xs =>
        rw [hms] at h
        replace h : (Except.ok (x :: xs) : Except MissingFieldError _) = .ok items := h
        cases h
        intro y hy
        rcases List.mem_cons.mp hy with h1 | h2
        · rw [h1]
          exact item_from_dict_weight m x hm
        · exact ih xs hms y h2

/-- C9: every item reachable through the public operations has a
non-negative weight: the constructor clamps (a negative input yields weight
exactly 0, without error), and `add_item`, `set_weight`, `remove_item` and
both imports preserve the invariant `WF`. -/
theorem weight_clamp_invariant :
    (∀ i n w, 0 ≤ (DistributionItem.init i n w).weight) ∧
    (∀ i n w, w < 0 → DistributionItem.init i n w =
      { id := i, name := n, weight := 0 }) ∧
    (∀ (d : WeightedDistribution) i n w, WF d → WF (d.add_item i n w)) ∧
    (∀ (d : WeightedDistribution) i w, WF d → WF (d.set_weight i w)) ∧
    (∀ (d : WeightedDistribution) i, WF d → WF (d.remove_item i)) ∧
    (∀ m x, DistributionItem.from_dict m = .ok x → 0 ≤ x.weight) ∧
    (∀ dm d, WeightedDistribution.from_dict dm = .ok d → WF d) := by
  refine ⟨?_, ?_, ?_, ?_, ?_, ?_, ?_⟩
  · intro i n w
    exact le_max_left 0 w
  · intro i n w hw
    unfold DistributionItem.init
    rw [max_eq_left (le_of_lt hw)]
  · intro d i n w hd x hx
    unfold WeightedDistribution.add_item at hx
    rcases List.mem_append.mp hx with h1 | h2
    · exact hd x h1
    · rw [List.mem_singleton.mp h2]
      exact le_max_left 0 w
  · intro d i w hd
    exact setFirstWeight_WF d.items i w hd
  · intro d i hd x hx
    unfold WeightedDistribution.remove_item at hx
    exact hd x (List.mem_of_mem_filter hx)
  · exact item_from_dict_weight
  · intro dm d h
    unfold WeightedDistribution.from_dict at h
    split at h
    · exact Except.noConfusion h
    · split at h
      · exact Except.noConfusion h
      · rename_i items hmap
        cases h
        exact mapM_from_dict_WF _ items hmap

/-- Witness for C9: the invariant parts applied to a concrete distribution,
and the clamp applied to a concrete negative weight. -/
theorem weight_clamp_invariant_witness :
    DistributionItem.init "x" "X" (-3) = { id := "x", name := "X", weight := 0 } ∧
    WF (demoDist.set_weight "3001" (-5)) ∧
    WF (demoDist.add_item "3005" "Brick 1x1" (-2)) :=
  ⟨weight_clamp_invariant.2.1 "x" "X" (-3) (by norm_num),
   weight_clamp_invariant.2.2.2.1 demoDist "3001" (-5) (by
     intro x hx
     simp only [demoDist, DistributionItem.init, List.mem_cons] at hx
     rcases hx with h1 | h2 | h3
     · rw [h1]; exact le_max_left 0 1
     · rw [h2]; exact le_max_left 0 _
     · exact absurd h3 (List.not_mem_nil x)),
   weight_clamp_invariant.2.2.1 demoDist "3005" "Brick 1x1" (-2) (by
     intro x hx
     simp only [demoDist, DistributionItem.init, List.mem_cons] at hx
     rcases hx with h1 | h2 | h3
     · rw [h1]; exact le_max_left 0 1
     · rw [h2]; exact le_max_left 0 _
     · exact absurd h3 (List.not_mem_nil x))⟩

/-! Helper lemmas for the round trip. -/

lemma item_from_to (x : DistributionItem) (hx : 0 ≤ x.weight) :
    DistributionItem.from_dict x.to_dict = .ok x := by
  unfold DistributionItem.from_dict DistributionItem.to_dict DistributionItem.init
  simp only [Option.getD_some]
  rw [max_eq_right hx]

lemma mapM_from_to (l : List DistributionItem) (h : ∀ x ∈ l, 0 ≤ x.weight) :
    (l.map DistributionItem.to_dict).mapM DistributionItem.from_dict = .ok l := by
  induction l with
  | nil => rw [List.map_nil, List.mapM_nil]; rfl
  | cons x xs ih =>
    rw [List.map_cons, List.mapM_cons,
      item_from_to x (h x (List.mem_cons_self x xs))]
    show ((xs.map DistributionItem.to_dict).mapM DistributionItem.from_dict
      >>= fun l2 => pure (x :: l2)) = _
    rw [ih (fun y hy => h y (List.mem_cons_of_mem x hy))]
    rfl

lemma dist_from_to (d : WeightedDistribution) (hd : WF d) :
    WeightedDistribution.from_dict d.to_dict = .ok d := by
  have h1 : WeightedDistribution.from_dict d.to_dict
      = (match (d.items.map DistributionItem.to_dict).mapM DistributionItem.from_dict with
        | Except.error e => (Except.error e : Except MissingFieldError WeightedDistribution)
        | Except.ok items => Except.ok { items := items }) := rfl
  rw [h1, mapM_from_to d.items hd]

/-- C4: importing the export of any reachable item, distribution or config
(all stored weights non-negative, which the public operations guarantee)
yields an object field-for-field equal to the original. -/
theorem round_trip (x : DistributionItem) (d : WeightedDistribution)
    (c : DistributionConfig) (hx : 0 ≤ x.weight) (hd : WF d)
    (hp : WF c.part_distribution) (hc : WF c.color_distribution) :
    DistributionItem.from_dict x.to_dict = .ok x ∧
    WeightedDistribution.from_dict d.to_dict = .ok d ∧
    DistributionConfig.from_dict c.to_dict = .ok c := by
  refine ⟨item_from_to x hx, dist_from_to d hd, ?_⟩
  have h1 : DistributionConfig.from_dict c.to_dict
      = (match WeightedDistribution.from_dict c.part_distribution.to_dict with
        | Except.error e => (Except.error e : Except MissingFieldError DistributionConfig)
        | Except.ok pd =>
          match WeightedDistribution.from_dict c.color_distribution.to_dict with
          | Except.error e => Except.error e
          | Except.ok cd =>
            Except.ok ⟨pd, cd, c.total_pieces, c.seed⟩) := rfl
  rw [h1, dist_from_to c.part_distribution hp, dist_from_to c.color_distribution hc]

/-- Witness for C4 at concrete inputs. -/
theorem round_trip_witness :
    DistributionItem.from_dict (DistributionItem.init "3001" "Brick 2x4" 1).to_dict
      = .ok (DistributionItem.init "3001" "Brick 2x4" 1) ∧
    WeightedDistribution.from_dict demoDist.to_dict = .ok demoDist ∧
    DistributionConfig.from_dict
        (DistributionConfig.mk demoDist zeroDist 7 (some 42)).to_dict
      = .ok (DistributionConfig.mk demoDist zeroDist 7 (some 42)) :=
  round_trip (DistributionItem.init "3001" "Brick 2x4" 1) demoDist
    (DistributionConfig.mk demoDist zeroDist 7 (some 42))
    (le_max_left 0 1)
    (by
      intro y hy
      simp only [demoDist, DistributionItem.init, List.mem_cons] at hy
      rcases hy with h1 | h2 | h3
      · rw [h1]; exact le_max_left 0 1
      · rw [h2]; exact le_max_left 0 _
      · exact absurd h3 (List.not_mem_nil y))
    (by
      intro y hy
      simp only [DistributionConfig.mk, demoDist, DistributionItem.init,
        List.mem_cons] at hy
      rcases hy with h1 | h2 | h3
      · rw [h1]; exact le_max_left 0 1
      · rw [h2]; exact le_max_left 0 _
      · exact absurd h3 (List.not_mem_nil y))
    (by
      intro y hy
      simp only [DistributionConfig.mk, zeroDist, DistributionItem.init,
        List.mem_cons] at hy
      rcases hy with h1 | h2 | h3
      · rw [h1]; exact le_max_left 0 0
      · rw [h2]; exact le_max_left 0 0
      · exact absurd h3 (List.not_mem_nil y))

/-! Helper lemmas for lookup, update and removal with duplicate ids. -/

lemma find?_first_match (i : String) :
    ∀ (l : List DistributionItem) (k : Nat), k < l.length →
      (l.getD k default).id = i →
      (∀ j, j < k → (l.getD j default).id ≠ i) →
      l.find? (fun item => item.id == i) = some (l.getD k default) := by
  intro l
  induction l with
  | nil =>
    intro k hk
    simp at hk
  | cons x xs ih =>
    intro k hk hid hprev
    cases k with
    | zero =>
      rw [List.getD_cons_zero] at hid ⊢
      exact List.find?_cons_of_pos _ (by simp [hid])
    | succ k =>
      have hx : x.id ≠ i := by
        have h0 := hprev 0 (Nat.succ_pos k)
        rwa [List.getD_cons_zero] at h0
      rw [List.getD_cons_succ]
      rw [List.find?_cons_of_neg _ (by simp [hx])]
      exact ih k (by simpa using hk) (by rwa [List.getD_cons_succ] at hid)
        (fun j hj => by
          have := hprev (j + 1) (by omega)
          rwa [List.getD_cons_succ] at this)

lemma setFirstWeight_length (l : List DistributionItem) (i : String) (w : ℚ) :
    (setFirstWeight l i w).length = l.length := by
  induction l with
  | nil => rfl
  | cons x xs ih =>
    by_cases hx : x.id = i
    · simp [setFirstWeight, hx]
    · simp [setFirstWeight, hx, ih]

lemma setFirstWeight_first_match (i : String) (w : ℚ) :
    ∀ (l : List DistributionItem) (k : Nat), k < l.length →
      (l.getD k default).id = i →
      (∀ j, j < k → (l.getD j default).id ≠ i) →
      (setFirstWeight l i w).getD k default =
        { l.getD k default with weight := max 0 w } ∧
      (∀ j, j < l.length → j ≠ k →
        (setFirstWeight l i w).getD j default = l.getD j default) := by
  intro l
  induction l with
  | nil =>
    intro k hk
    simp at hk
  | cons x xs ih =>
    intro k hk hid hprev
    cases k with
    | zero =>
      rw [List.getD_cons_zero] at hid
      constructor
      · rw [List.getD_cons_zero]
        simp [setFirstWeight, hid]
      · intro j hj hjk
        cases j with
        | zero => exact absurd rfl hjk
        | succ j =>
          simp [setFirstWeight, hid, List.getD_cons_succ]
    | succ k =>
      have hx : x.id ≠ i := by
        have h0 := hprev 0 (Nat.succ_pos k)
        rwa [List.getD_cons_zero] at h0
      have hk2 : k < xs.length := by simpa using hk
      have hid2 : (xs.getD k default).id = i := by
        rwa [List.getD_cons_succ] at hid
      have hprev2 : ∀ j, j < k → (xs.getD j default).id ≠ i := fun j hj => by
        have := hprev (j + 1) (by omega)
        rwa [List.getD_cons_succ] at this
      obtain ⟨h1, h2⟩ := ih k hk2 hid2 hprev2
      constructor
      · rw [List.getD_cons_succ]
        simp only [setFirstWeight, if_neg hx, List.getD_cons_succ]
        exact h1
      · intro j hj hjk
        cases j with
        | zero =>
          simp [setFirstWeight, hx]
        | succ j =>
          simp only [setFirstWeight, if_neg hx, List.getD_cons_succ]
          exact h2 j (by simpa using hj) (by omega)

lemma setFirstWeight_absent (l : List DistributionItem) (i : String) (w : ℚ)
    (h : ∀ x ∈ l, x.id ≠ i) : setFirstWeight l i w = l := by
  induction l with
  | nil => rfl
  | cons x xs ih =>
    rw [setFirstWeight, if_neg (h x (List.mem_cons_self x xs))]
    rw [ih (fun y hy => h y (List.mem_cons_of_mem x hy))]

/-- C7: `remove_item` removes every item whose id matches, preserving the
relative order of the rest; `get_item` returns the first match in insertion
order and `set_weight` updates exactly that first match (clamped at 0);
on an absent id, `get_item` is `None` and `set_weight`/`remove_item`
leave the distribution unchanged. -/
theorem first_match_semantics (d : WeightedDistribution) (i : String) (w : ℚ) :
    ((d.remove_item i).items.Sublist d.items ∧
      (∀ x, x ∈ (d.remove_item i).items ↔ x ∈ d.items ∧ x.id ≠ i)) ∧
    (∀ k, k < d.items.length → (d.items.getD k default).id = i →
      (∀ j, j < k → (d.items.getD j default).id ≠ i) →
      d.get_item i = some (d.items.getD k default) ∧
      (d.set_weight i w).items.length = d.items.length ∧
      (d.set_weight i w).items.getD k default =
        { d.items.getD k default with weight := max 0 w } ∧
      (∀ j, j < d.items.length → j ≠ k →
        (d.set_weight i w).items.getD j default = d.items.getD j default)) ∧
    ((∀ x ∈ d.items, x.id ≠ i) →
      d.get_item i = none ∧ d.set_weight i w = d ∧ d.remove_item i = d) := by
  refine ⟨⟨List.filter_sublist _, ?_⟩, ?_, ?_⟩
  · intro x
    unfold WeightedDistribution.remove_item
    simp [List.mem_filter]
  · intro k hk hid hprev
    obtain ⟨h1, h2⟩ := setFirstWeight_first_match i w d.items k hk hid hprev
    exact ⟨find?_first_match i d.items k hk hid hprev,
      setFirstWeight_length d.items i w, h1, h2⟩
  · intro h
    refine ⟨?_, ?_, ?_⟩
    · unfold WeightedDistribution.get_item
      rw [List.find?_eq_none]
      intro x hx
      simp [h x hx]
    · unfold WeightedDistribution.set_weight
      rw [setFirstWeight_absent d.items i w h]
    · unfold WeightedDistribution.remove_item
      rw [List.filter_eq_self.mpr (fun x hx => by simp [h x hx])]

/-- Witness for C7 on a concrete distribution with a duplicate id. -/
theorem first_match_semantics_witness :
    (dupDist.get_item "a" = some (dupDist.items.getD 0 default) ∧
      (dupDist.set_weight "a" (-5)).items.length = dupDist.items.length ∧
      (dupDist.set_weight "a" (-5)).items.getD 0 default =
        { dupDist.items.getD 0 default with weight := max 0 (-5) } ∧
      (∀ j, j < dupDist.items.length → j ≠ 0 →
        (dupDist.set_weight "a" (-5)).items.getD j default =
          dupDist.items.getD j default)) ∧
    (dupDist.get_item "zz" = none ∧ dupDist.set_weight "zz" 4 = dupDist ∧
      dupDist.remove_item "zz" = dupDist) :=
  ⟨(first_match_semantics dupDist "a" (-5)).2.1 0 (by simp [dupDist])
      (by simp [dupDist, DistributionItem.init])
      (fun j hj => absurd hj (Nat.not_lt_zero j)),
   (first_match_semantics dupDist "zz" 4).2.2 (by
      intro x hx
      simp only [dupDist, DistributionItem.init, List.mem_cons] at hx
      rcases hx with h1 | h2 | h3 | h4
      · rw [h1]; simp
      · rw [h2]; simp
      · rw [h3]; simp
      · exact absurd h4 (List.not_mem_nil x))⟩

/-! Helper lemmas for import failure analysis. -/

lemma mapM_ok_of_fields (l : List ItemDict)
    (h : ∀ md ∈ l, md.id ≠ none ∧ md.name ≠ none) :
    ∃ items, l.mapM DistributionItem.from_dict = .ok items := by
  induction l with
  | nil => exact ⟨[], by rw [List.mapM_nil]; rfl⟩
  | cons m ms ih =>
    obtain ⟨hid, hname⟩ := h m (List.mem_cons_self m ms)
    obtain ⟨i, hi⟩ := Option.ne_none_iff_exists'.mp hid
    obtain ⟨n, hn⟩ := Option.ne_none_iff_exists'.mp hname
    obtain ⟨items, hitems⟩ := ih (fun md hmd => h md (List.mem_cons_of_mem m hmd))
    refine ⟨DistributionItem.init i n (m.weight.getD 1) :: items, ?_⟩
    have hm : DistributionItem.from_dict m
        = .ok (DistributionItem.init i n (m.weight.getD 1)) := by
      unfold DistributionItem.from_dict
      rw [hi, hn]
    rw [List.mapM_cons, hm]
    show (ms.mapM DistributionItem.from_dict >>= fun xs => pure (_ :: xs)) = _
    rw [hitems]
    rfl

/-- C8: item import fails exactly when `id` or `name` is absent (a missing
`weight` defaults to 1.0), and distribution import fails with the missing
`items` key exactly when that key is absent; with `items` present and every
entry carrying `id` and `name`, the import succeeds. -/
theorem import_missing_field (m : ItemDict) (dm : DistDict) :
    ((∃ e, DistributionItem.from_dict m = .error e) ↔
      (m.id = none ∨ m.name = none)) ∧
    (∀ i n, m.id = some i → m.name = some n → m.weight = none →
      DistributionItem.from_dict m = .ok (DistributionItem.init i n 1)) ∧
    (dm.items = none → WeightedDistribution.from_dict dm = .error (.missing "items")) ∧
    (∀ l, dm.items = some l → (∀ md ∈ l, md.id ≠ none ∧ md.name ≠ none) →
      ∃ d, WeightedDistribution.from_dict dm = .ok d) := by
  refine ⟨?_, ?_, ?_, ?_⟩
  · unfold DistributionItem.from_dict
    cases hid : m.id with
    | none =>
      simp only [eq_self_iff_true, true_or, iff_true]
      exact ⟨.missing "id", rfl⟩
    | some i =>
      cases hname : m.name with
      | none =>
        simp only [eq_self_iff_true, or_true, iff_true]
        exact ⟨.missing "name", rfl⟩
      | some n =>
        constructor
        · rintro ⟨e, he⟩
          exact Except.noConfusion he
        · rintro (h1 | h2)
          · exact Option.noConfusion h1
          · exact Option.noConfusion h2
  · intro i n hi hn hw
    unfold DistributionItem.from_dict
    rw [hi, hn, hw]
    rfl
  · intro h
    unfold WeightedDistribution.from_dict
    rw [h]
  · intro l hl h
    obtain ⟨items, hitems⟩ := mapM_ok_of_fields l h
    refine ⟨{ items := items }, ?_⟩
    unfold WeightedDistribution.from_dict
    rw [hl]
    show (match l.mapM DistributionItem.from_dict with
      | Except.error e => (Except.error e : Except MissingFieldError WeightedDistribution)
      | Except.ok items => Except.ok { items := items }) = _
    rw [hitems]

/-- A concrete item mapping with all keys but `weight`. -/
def itemDictIdName : ItemDict := { id := some "A", name := some "Alpha", weight := none }

/-- A concrete distribution mapping with the `items` key present. -/
def distDictSome : DistDict := { items := some [itemDictIdName] }

/-- A concrete distribution mapping lacking the `items` key. -/
def distDictNone : DistDict := { items := none }

/-- Witness for C8 at concrete mappings. -/
theorem import_missing_field_witness :
    DistributionItem.from_dict itemDictIdName = .ok (DistributionItem.init "A" "Alpha" 1) ∧
    WeightedDistribution.from_dict distDictNone = .error (.missing "items") ∧
    (∃ d, WeightedDistribution.from_dict distDictSome = .ok d) :=
  ⟨(import_missing_field itemDictIdName distDictSome).2.1 "A" "Alpha" rfl rfl rfl,
   (import_missing_field itemDictIdName distDictNone).2.2.1 rfl,
   (import_missing_field itemDictIdName distDictSome).2.2.2 [itemDictIdName] rfl
     (by
       intro md hmd
       rw [List.mem_singleton.mp hmd]
       exact ⟨by simp [itemDictIdName], by simp [itemDictIdName]⟩)⟩

/-! Helper lemmas for the sampling machinery. -/

lemma accumulate_getLast (acc x : ℚ) (l : List ℚ) :
    (accumulate acc (x :: l)).getLast? = some (acc + (x :: l).sum) := by
  induction l generalizing acc x with
  | nil => simp [accumulate]
  | cons y ys ih =>
    have hstep : accumulate acc (x :: y :: ys)
        = (acc + x) :: (acc + x + y) :: accumulate (acc + x + y) ys := rfl
    have hstep2 : accumulate (acc + x) (y :: ys)
        = (acc + x + y) :: accumulate (acc + x + y) ys := rfl
    rw [hstep, List.getLast?_cons_cons, ← hstep2, ih]
    simp only [List.sum_cons, Option.some.injEq]
    ring

lemma bisectRight_le_fuel (a : List ℚ) (x : ℚ) :
    ∀ (fuel lo hi : Nat), hi - lo ≤ fuel → lo ≤ hi → bisectRight a x lo hi ≤ hi := by
  intro fuel
  induction fuel with
  | zero =>
    intro lo hi hf hle
    unfold bisectRight
    rw [dif_neg (by omega)]
    exact hle
  | succ f ih =>
    intro lo hi hf hle
    unfold bisectRight
    by_cases h : lo < hi
    · rw [dif_pos h]
      show (if x < a.getD ((lo + hi) / 2) 0 then bisectRight a x lo ((lo + hi) / 2)
        else bisectRight a x ((lo + hi) / 2 + 1) hi) ≤ hi
      by_cases hx2 : x < a.getD ((lo + hi) / 2) 0
      · rw [if_pos hx2]
        exact le_trans (ih lo ((lo + hi) / 2) (by omega) (by omega)) (by omega)
      · rw [if_neg hx2]
        exact ih ((lo + hi) / 2 + 1) hi (by omega) (by omega)
    · rw [dif_neg h]
      exact hle

lemma bisectRight_le (a : List ℚ) (x : ℚ) (hi : Nat) : bisectRight a x 0 hi ≤ hi :=
  bisectRight_le_fuel a x hi 0 hi (by omega) (Nat.zero_le hi)

lemma drawLoop_length {S : Type} (g : PyRandom S) (pop : List DistributionItem)
    (cum : List ℚ) (total : ℚ) (hi : Nat) :
    ∀ k s, (drawLoop g pop cum total hi k s).1.length = k := by
  intro k
  induction k with
  | zero => intro s; rfl
  | succ k ih =>
    intro s
    simp [drawLoop, ih]

lemma drawLoop_mem {S : Type} (g : PyRandom S) (pop : List DistributionItem)
    (cum : List ℚ) (total : ℚ) (hi : Nat) (hhi : hi < pop.length) :
    ∀ k s x, x ∈ (drawLoop g pop cum total hi k s).1 → x ∈ pop := by
  intro k
  induction k with
  | zero =>
    intro s x hx
    exact absurd hx (List.not_mem_nil x)
  | succ k ih =>
    intro s x hx
    simp only [drawLoop, List.mem_cons] at hx
    rcases hx with h1 | h2
    · have hidx : bisectRight cum ((g.randfloat s).1 * total) 0 hi < pop.length :=
        lt_of_le_of_lt (bisectRight_le cum _ hi) hhi
      rw [h1, List.getD_eq_getElem _ _ hidx]
      exact List.getElem_mem _
    · exact ih _ x h2

lemma pyChoice_ok {S : Type} (g : PyRandom S) (items : List DistributionItem)
    (hne : items ≠ []) (s : S) :
    pyChoice g items s = .ok (items.getD (g.randbelow s items.length).1 default,
      (g.randbelow s items.length).2) := by
  unfold pyChoice
  rw [if_neg (by simpa [List.isEmpty_iff] using hne)]

lemma uniformLoop_spec {S : Type} (g : PyRandom S) (items : List DistributionItem)
    (hne : items ≠ []) :
    ∀ k s, ∃ l s2, uniformLoop g items k s = .ok (l, s2) ∧ l.length = k ∧
      ((∀ t n, 0 < n → (g.randbelow t n).1 < n) → ∀ x ∈ l, x ∈ items) := by
  intro k
  induction k with
  | zero =>
    intro s
    exact ⟨[], s, rfl, rfl, fun _ x hx => absurd hx (List.not_mem_nil x)⟩
  | succ k ih =>
    intro s
    obtain ⟨l, s2, hloop, hlen, hmem⟩ := ih (g.randbelow s items.length).2
    refine ⟨items.getD (g.randbelow s items.length).1 default :: l, s2, ?_, by
        simp [hlen], ?_⟩
    · show (match pyChoice g items s with
        | .error e => (.error e : Except String (List DistributionItem × S))
        | .ok (x, s1) =>
          match uniformLoop g items k s1 with
          | .error e => .error e
          | .ok (l, s2) => .ok (x :: l, s2)) = _
      rw [pyChoice_ok g items hne s]
      show (match uniformLoop g items k (g.randbelow s items.length).2 with
        | .error e => (.error e : Except String (List DistributionItem × S))
        | .ok (l, s2) =>
          .ok (items.getD (g.randbelow s items.length).1 default :: l, s2)) = _
      rw [hloop]
    · intro hrb x hx
      rcases List.mem_cons.mp hx with h1 | h2
      · have hlen0 : 0 < items.length := List.length_pos.mpr hne
        have hidx : (g.randbelow s items.length).1 < items.length := hrb s _ hlen0
        rw [h1, List.getD_eq_getElem _ _ hidx]
        exact List.getElem_mem _
      · exact hmem hrb x h2

lemma pyChoices_eq {S : Type} (g : PyRandom S) (pop : List DistributionItem)
    (weights : List ℚ) (k : Int) (s : S)
    (hlen : weights.length = pop.length) (hne : weights ≠ [])
    (hsum : weights.sum = 1) :
    pyChoices g pop weights k s
      = .ok (drawLoop g pop (accumulate 0 weights) 1 (pop.length - 1) k.toNat s) := by
  obtain ⟨w, ws, rfl⟩ := List.exists_cons_of_ne_nil hne
  unfold pyChoices
  rw [if_neg (by simp [hlen]), accumulate_getLast,
    show (0 : ℚ) + (w :: ws).sum = 1 by rw [hsum]; ring]
  norm_num

lemma pyChoices_spec {S : Type} (g : PyRandom S) (pop : List DistributionItem)
    (weights : List ℚ) (k : Int) (s : S)
    (hlen : weights.length = pop.length) (hne : weights ≠ [])
    (hsum : weights.sum = 1) :
    ∃ l s2, pyChoices g pop weights k s = .ok (l, s2) ∧ l.length = k.toNat ∧
      ∀ x ∈ l, x ∈ pop := by
  have hpop : 0 < pop.length := by
    rw [← hlen]
    exact List.length_pos.mpr hne
  rw [pyChoices_eq g pop weights k s hlen hne hsum]
  refine ⟨_, _, rfl, drawLoop_length g pop _ 1 _ k.toNat s, ?_⟩
  exact fun x hx => drawLoop_mem g pop _ 1 _ (by omega) k.toNat s x hx

lemma sampleBody_spec {S : Type} (g : PyRandom S) (d : WeightedDistribution)
    (count : Int) (s1 : S) (hne : d.items ≠ []) :
    ∃ l s2, sampleBody g d count s1 = .ok (l, s2) ∧ l.length = count.toNat ∧
      ((∀ t n, 0 < n → (g.randbelow t n).1 < n) → ∀ x ∈ l, x ∈ d.items) := by
  unfold sampleBody
  by_cases hw : d.get_normalized_weights.isEmpty
  · rw [if_pos hw]
    exact uniformLoop_spec g d.items hne count.toNat s1
  · rw [if_neg hw]
    have hnnil : d.get_normalized_weights ≠ [] := by
      simpa [List.isEmpty_iff] using hw
    have htot : d.totalWeight ≠ 0 := fun h0 => hnnil ((normalized_eq_nil_iff d).mpr h0)
    obtain ⟨l, s2, heq, hlen, hmem⟩ := pyChoices_spec g d.items
      d.get_normalized_weights count s1 (normalized_length d htot) hnnil
      (normalized_sum_one d htot)
    exact ⟨l, s2, heq, hlen, fun _ => hmem⟩

lemma sample_spec {S : Type} (g : PyRandom S) (d : WeightedDistribution)
    (count : Int) (seed : Option Int) (s : S) :
    ∃ l s2, d.sample g count seed s = .ok (l, s2) ∧
      (d.items = [] → l = [] ∧ s2 = s) ∧
      (d.items ≠ [] → l.length = count.toNat ∧
        ((∀ t n, 0 < n → (g.randbelow t n).1 < n) → ∀ x ∈ l, x ∈ d.items)) := by
  by_cases hempty : d.items = []
  · refine ⟨[], s, ?_, fun _ => ⟨rfl, rfl⟩, fun h => absurd hempty h⟩
    unfold WeightedDistribution.sample
    rw [if_pos (by simpa [List.isEmpty_iff] using hempty)]
  · obtain ⟨l, s2, heq, hlen, hmem⟩ := sampleBody_spec g d count
      (match seed with | some z => g.seedFn z | none => s) hempty
    refine ⟨l, s2, ?_, fun h => absurd h hempty, fun _ => ⟨hlen, hmem⟩⟩
    unfold WeightedDistribution.sample
    rw [if_neg (by simpa [List.isEmpty_iff] using hempty)]
    exact heq

/-- C1: sampling from an empty distribution returns the empty sequence
(for any count); sampling from a non-empty distribution returns exactly
`count` items, each drawn from the distribution's items, also in the
degenerate all-zero-weight case (which takes the uniform fallback without
error). -/
theorem sample_length_spec {S : Type} (g : PyRandom S) (d : WeightedDistribution)
    (count : Int) (seed : Option Int) (s : S)
    (hrb : ∀ t n, 0 < n → (g.randbelow t n).1 < n) (hc : 0 ≤ count) :
    (d.items = [] → d.sample g count seed s = .ok ([], s)) ∧
    (d.items ≠ [] → ∃ l s2, d.sample g count seed s = .ok (l, s2) ∧
      (l.length : Int) = count ∧ ∀ x ∈ l, x ∈ d.items) := by
  obtain ⟨l, s2, heq, hempty, hnonempty⟩ := sample_spec g d count seed s
  constructor
  · intro h
    obtain ⟨h1, h2⟩ := hempty h
    rw [heq, h1, h2]
  · intro h
    obtain ⟨hlen, hmem⟩ := hnonempty h
    refine ⟨l, s2, heq, ?_, hmem hrb⟩
    rw [hlen]
    exact Int.toNat_of_nonneg hc

/-- Witness for C1: a concrete two-item distribution (and the all-zero
distribution reached through the same theorem, via the second conjunct). -/
theorem sample_length_spec_witness :
    (zeroDist.items = [] → zeroDist.sample natGen 4 (some 5) 0 = .ok ([], 0)) ∧
    (zeroDist.items ≠ [] → ∃ l s2, zeroDist.sample natGen 4 (some 5) 0 = .ok (l, s2) ∧
      (l.length : Int) = 4 ∧ ∀ x ∈ l, x ∈ zeroDist.items) :=
  sample_length_spec natGen zeroDist 4 (some 5) 0
    (fun t n hn => Nat.mod_lt t hn) (by norm_num)

/-- C2: with the same integer seed, two `sample` calls on the same
distribution return identical output sequences regardless of the incoming
generator state (i.e. regardless of any other use of the generator in
between): the reseed overwrites the global state. -/
theorem sample_deterministic {S : Type} (g : PyRandom S) (d : WeightedDistribution)
    (count : Int) (seedv : Int) (s1 s2 : S) :
    (d.sample g count (some seedv) s1).map Prod.fst
      = (d.sample g count (some seedv) s2).map Prod.fst := by
  unfold WeightedDistribution.sample
  by_cases h : d.items.isEmpty
  · rw [if_pos h, if_pos h]
    rfl
  · rw [if_neg h, if_neg h]

lemma generate_eq {S : Type} (g : PyRandom S) (cfg : DistributionConfig) (s : S)
    (parts colors : List DistributionItem) (s1 s2 : S)
    (hp : cfg.part_distribution.sample g cfg.total_pieces cfg.seed s = .ok (parts, s1))
    (hc : cfg.color_distribution.sample g cfg.total_pieces
        (cfg.seed.map (fun z => z + 1)) s1 = .ok (colors, s2)) :
    cfg.generate_part_color_pairs g s
      = .ok ((parts.zip colors).map (fun pc => (pc.1.id, pc.2.id)), s2) := by
  unfold DistributionConfig.generate_part_color_pairs
  rw [hp]
  show (match cfg.color_distribution.sample g cfg.total_pieces
      (cfg.seed.map (fun z => z + 1)) s1 with
    | .error e => (.error e : Except String (List (String × String) × S))
    | .ok (colors, s2) =>
      .ok ((parts.zip colors).map
        (fun pc : DistributionItem × DistributionItem => (pc.1.id, pc.2.id)), s2)) = _
  rw [hc]

/-- C10: a negative count yields an empty sample (no error) from any
non-empty distribution, in both the weighted and the all-zero-weight
branches, and a config with negative `total_pieces` generates no pairs. -/
theorem sample_negative_count {S : Type} (g : PyRandom S) (d : WeightedDistribution)
    (count : Int) (seed : Option Int) (s : S) (cfg : DistributionConfig)
    (hd : d.items ≠ []) (hc : count < 0) (hcfg : cfg.total_pieces < 0) :
    (∃ s2, d.sample g count seed s = .ok ([], s2)) ∧
    (∃ s2, cfg.generate_part_color_pairs g s = .ok ([], s2)) := by
  constructor
  · obtain ⟨l, s2, heq, _, hne⟩ := sample_spec g d count seed s
    obtain ⟨hlen, _⟩ := hne hd
    have hl : l = [] := List.length_eq_zero.mp (by rw [hlen]; omega)
    exact ⟨s2, by rw [heq, hl]⟩
  · obtain ⟨pl, ps2, hpeq, hpempty, hpne⟩ :=
      sample_spec g cfg.part_distribution cfg.total_pieces cfg.seed s
    have hpl : pl = [] := by
      by_cases hp : cfg.part_distribution.items = []
      · exact (hpempty hp).1
      · obtain ⟨hlen, _⟩ := hpne hp
        exact List.length_eq_zero.mp (by rw [hlen]; omega)
    subst hpl
    obtain ⟨cl, cs2, hceq, _, _⟩ := sample_spec g cfg.color_distribution
      cfg.total_pieces (cfg.seed.map (fun z => z + 1)) ps2
    exact ⟨cs2, by rw [generate_eq g cfg s [] cl ps2 cs2 hpeq hceq]; rfl⟩

/-- Witness for C10 at a concrete distribution and config. -/
theorem sample_negative_count_witness :
    (∃ s2, demoDist.sample natGen (-3) none 0 = .ok ([], s2)) ∧
    (∃ s2, DistributionConfig.generate_part_color_pairs natGen
      ⟨demoDist, zeroDist, -2, none⟩ 0 = .ok ([], s2)) :=
  sample_negative_count natGen demoDist (-3) none 0 ⟨demoDist, zeroDist, -2, none⟩
    (by simp [demoDist]) (by norm_num) (by norm_num)

lemma zip_replicate_same {α β : Type} (a : α) (b : β) :
    ∀ n, (List.replicate n a).zip (List.replicate n b) = List.replicate n (a, b) := by
  intro n
  induction n with
  | zero => rfl
  | succ n ih => simp [List.replicate_succ, ih]

lemma map_zip_ids (parts colors : List DistributionItem) :
    (parts.zip colors).map
        (fun pc : DistributionItem × DistributionItem => (pc.1.id, pc.2.id))
      = (parts.map (fun x => x.id)).zip (colors.map (fun x => x.id)) := by
  rw [List.zip_map]
  congr 1

/-- C3: `generate_part_color_pairs` samples `total_pieces` parts with
`seed`, then `total_pieces` colors with `seed + 1` when a seed is given,
and returns the positional zip of the two id sequences; with both
distributions non-empty the result has length `total_pieces`, with either
empty it is empty, and with exactly one part item and one color item,
`total_pieces = 5`, `seed = 7`, it is `[(part_id, color_id)] * 5`. -/
theorem generate_pairs_spec {S : Type} (g : PyRandom S) (cfg : DistributionConfig)
    (s : S) (hrb : ∀ t n, 0 < n → (g.randbelow t n).1 < n)
    (htp : 0 ≤ cfg.total_pieces) :
    (cfg.part_distribution.items ≠ [] → cfg.color_distribution.items ≠ [] →
      ∃ parts colors s1 s2,
        cfg.part_distribution.sample g cfg.total_pieces cfg.seed s = .ok (parts, s1) ∧
        cfg.color_distribution.sample g cfg.total_pieces
          (cfg.seed.map (fun z => z + 1)) s1 = .ok (colors, s2) ∧
        cfg.generate_part_color_pairs g s
          = .ok ((parts.map (fun x => x.id)).zip (colors.map (fun x => x.id)), s2) ∧
        (((parts.map (fun x => x.id)).zip
            (colors.map (fun x => x.id))).length : Int) = cfg.total_pieces) ∧
    ((cfg.part_distribution.items = [] ∨ cfg.color_distribution.items = []) →
      ∃ s2, cfg.generate_part_color_pairs g s = .ok ([], s2)) ∧
    (∀ p c : DistributionItem, ∀ t : S,
      ∃ s2, DistributionConfig.generate_part_color_pairs g
        (DistributionConfig.mk ⟨[p]⟩ ⟨[c]⟩ 5 (some 7)) t
        = .ok (List.replicate 5 (p.id, c.id), s2)) := by
  refine ⟨?_, ?_, ?_⟩
  · intro hp hc
    obtain ⟨parts, s1, hpeq, _, hpne⟩ :=
      sample_spec g cfg.part_distribution cfg.total_pieces cfg.seed s
    obtain ⟨colors, s2, hceq, _, hcne⟩ := sample_spec g cfg.color_distribution
      cfg.total_pieces (cfg.seed.map (fun z => z + 1)) s1
    refine ⟨parts, colors, s1, s2, hpeq, hceq, ?_, ?_⟩
    · rw [generate_eq g cfg s parts colors s1 s2 hpeq hceq, map_zip_ids]
    · rw [List.length_zip, List.length_map, List.length_map, (hpne hp).1,
        (hcne hc).1, min_self]
      exact Int.toNat_of_nonneg htp
  · intro hor
    obtain ⟨parts, s1, hpeq, hpempty, hpne⟩ :=
      sample_spec g cfg.part_distribution cfg.total_pieces cfg.seed s
    obtain ⟨colors, s2, hceq, hcempty, hcne⟩ := sample_spec g cfg.color_distribution
      cfg.total_pieces (cfg.seed.map (fun z => z + 1)) s1
    refine ⟨s2, ?_⟩
    rw [generate_eq g cfg s parts colors s1 s2 hpeq hceq]
    rcases hor with hp | hc
    · rw [(hpempty hp).1]
      rfl
    · rw [(hcempty hc).1]
      simp
  · intro p c t
    obtain ⟨parts, s1, hpeq, _, hpne⟩ := sample_spec g
      (WeightedDistribution.mk [p]) 5 (some 7) t
    obtain ⟨colors, s2, hceq, _, hcne⟩ := sample_spec g
      (WeightedDistribution.mk [c]) 5 ((some (7 : Int)).map (fun z => z + 1)) s1
    have hpl : parts = List.replicate 5 p := by
      have h5 := hpne (by simp)
      have hall : ∀ x ∈ parts, x = p := fun x hx =>
        List.mem_singleton.mp (h5.2 hrb x hx)
      rw [List.eq_replicate_of_mem hall, h5.1]
      rfl
    have hcl : colors = List.replicate 5 c := by
      have h5 := hcne (by simp)
      have hall : ∀ x ∈ colors, x = c := fun x hx =>
        List.mem_singleton.mp (h5.2 hrb x hx)
      rw [List.eq_replicate_of_mem hall, h5.1]
      rfl
    refine ⟨s2, ?_⟩
    rw [generate_eq g (DistributionConfig.mk ⟨[p]⟩ ⟨[c]⟩ 5 (some 7)) t
      parts colors s1 s2 hpeq hceq, hpl, hcl, zip_replicate_same,
      List.map_replicate]

/-- Witness for C3 at a concrete config (both sub-claims exercised, plus
the singleton scenario through the same theorem). -/
theorem generate_pairs_spec_witness :
    (demoDist.items ≠ [] → zeroDist.items ≠ [] →
      ∃ parts colors s1 s2,
        demoDist.sample natGen 6 (some 3) 0 = .ok (parts, s1) ∧
        zeroDist.sample natGen 6 ((some (3 : Int)).map (fun z => z + 1)) s1
          = .ok (colors, s2) ∧
        DistributionConfig.generate_part_color_pairs natGen
          ⟨demoDist, zeroDist, 6, some 3⟩ 0
          = .ok ((parts.map (fun x => x.id)).zip (colors.map (fun x => x.id)), s2) ∧
        (((parts.map (fun x => x.id)).zip
            (colors.map (fun x => x.id))).length : Int) = 6) ∧
    ((demoDist.items = [] ∨ zeroDist.items = []) →
      ∃ s2, DistributionConfig.generate_part_color_pairs natGen
        ⟨demoDist, zeroDist, 6, some 3⟩ 0 = .ok ([], s2)) ∧
    (∀ p c : DistributionItem, ∀ t : Nat,
      ∃ s2, DistributionConfig.generate_part_color_pairs natGen
        (DistributionConfig.mk ⟨[p]⟩ ⟨[c]⟩ 5 (some 7)) t
        = .ok (List.replicate 5 (p.id, c.id), s2)) :=
  generate_pairs_spec natGen ⟨demoDist, zeroDist, 6, some 3⟩ 0
    (fun t n hn => Nat.mod_lt t hn) (by norm_num)

/-! Helper lemmas about the insertion-ordered dict. -/

lemma upsert_keys (k : String) (v : Int) (a : String) :
    ∀ m : List (String × Int),
      (a ∈ (upsert m k v).map Prod.fst ↔ a ∈ m.map Prod.fst ∨ a = k) := by
  intro m
  induction m with
  | nil => simp [upsert]
  | cons p rest ih =>
    obtain ⟨k1, v1⟩ := p
    by_cases hp : k1 = k
    · subst hp
      simp [upsert]
      tauto
    · simp only [upsert, if_neg hp, List.map_cons, List.mem_cons, ih]
      tauto

lemma dictFind_upsert_self (k : String) (v : Int) :
    ∀ m, dictFind (upsert m k v) k = some v := by
  intro m
  induction m with
  | nil => simp [upsert, dictFind]
  | cons p rest ih =>
    obtain ⟨k1, v1⟩ := p
    by_cases hp : k1 = k
    · simp [upsert, hp, dictFind]
    · simp [upsert, hp, dictFind, ih]

lemma dictFind_upsert_other (k a : String) (v : Int) (hne : a ≠ k) :
    ∀ m, dictFind (upsert m k v) a = dictFind m a := by
  intro m
  induction m with
  | nil => simp [upsert, dictFind, hne.symm]
  | cons p rest ih =>
    obtain ⟨k1, v1⟩ := p
    by_cases hp : k1 = k
    · subst hp
      simp [upsert, dictFind, hne.symm]
    · simp [upsert, hp, dictFind, ih]

lemma foldl_upsert_keys (v : DistributionItem → Int) (a : String) :
    ∀ (l : List DistributionItem) (init : List (String × Int)),
      (a ∈ (l.foldl (fun m x => upsert m x.id (v x)) init).map Prod.fst ↔
        a ∈ init.map Prod.fst ∨ a ∈ l.map (fun x => x.id)) := by
  intro l
  induction l with
  | nil => simp
  | cons x xs ih =>
    intro init
    rw [List.foldl_cons, ih, upsert_keys]
    simp only [List.map_cons, List.mem_cons]
    tauto

lemma foldl_upsert_absent (v : DistributionItem → Int) (a : String) :
    ∀ (l : List DistributionItem) (init : List (String × Int)),
      a ∉ l.map (fun x => x.id) →
      dictFind (l.foldl (fun m x => upsert m x.id (v x)) init) a = dictFind init a := by
  intro l
  induction l with
  | nil =>
    intro init _
    rfl
  | cons x xs ih =>
    intro init ha
    simp only [List.map_cons, List.mem_cons] at ha
    push_neg at ha
    rw [List.foldl_cons, ih _ ha.2, dictFind_upsert_other _ _ _ ha.1]

lemma foldl_upsert_nodup (v : DistributionItem → Int) :
    ∀ (l : List DistributionItem) (init : List (String × Int))
      (x : DistributionItem), x ∈ l → (l.map (fun y => y.id)).Nodup →
      dictFind (l.foldl (fun m y => upsert m y.id (v y)) init) x.id = some (v x) := by
  intro l
  induction l with
  | nil =>
    intro init x hx
    exact absurd hx (List.not_mem_nil x)
  | cons y ys ih =>
    intro init x hx hnd
    rw [List.map_cons, List.nodup_cons] at hnd
    rw [List.foldl_cons]
    rcases List.mem_cons.mp hx with h1 | h2
    · have hnin : x.id ∉ ys.map (fun z => z.id) := by
        rw [h1]
        exact hnd.1
      rw [foldl_upsert_absent v x.id ys _ hnin, h1, dictFind_upsert_self]
    · exact ih _ x h2 hnd.2

lemma zip_self_map {α β : Type} (f : α → β) :
    ∀ l : List α, l.zip (l.map f) = l.map (fun x => (x, f x)) := by
  intro l
  induction l with
  | nil => rfl
  | cons x xs ih => simp [ih]

lemma expected_counts_eq_foldl (d : WeightedDistribution) (total : Int)
    (htot : d.totalWeight ≠ 0) :
    d.get_expected_counts total
      = d.items.foldl (fun m x => upsert m x.id
          (roundHalfEven (x.weight / d.totalWeight * total))) [] := by
  have hnw : d.get_normalized_weights
      = d.items.map (fun x => x.weight / d.totalWeight) := by
    unfold WeightedDistribution.get_normalized_weights
    rw [if_neg htot]
  show (if d.get_normalized_weights.isEmpty then ([] : List (String × Int))
    else (d.items.zip d.get_normalized_weights).foldl
      (fun counts p => upsert counts p.1.id (roundHalfEven (p.2 * total))) []) = _
  rw [if_neg (by simpa [List.isEmpty_iff, normalized_eq_nil_iff] using htot),
    hnw, zip_self_map, List.foldl_map]

/-- C6: with strictly positive total weight, `get_expected_counts` returns
a mapping whose keys are exactly the item ids present, each id mapped (for
pairwise-distinct ids) to its normalized weight times `total`, rounded half
to even; with total weight 0 it returns the empty mapping. -/
theorem expected_counts_spec (d : WeightedDistribution) (total : Int) :
    (0 < d.totalWeight →
      (∀ a, a ∈ (d.get_expected_counts total).map Prod.fst ↔
        a ∈ d.items.map (fun x => x.id)) ∧
      ((d.items.map (fun x => x.id)).Nodup → ∀ x ∈ d.items,
        dictFind (d.get_expected_counts total) x.id
          = some (roundHalfEven (x.weight / d.totalWeight * total)))) ∧
    (d.totalWeight = 0 → d.get_expected_counts total = []) := by
  constructor
  · intro h
    have htot : d.totalWeight ≠ 0 := ne_of_gt h
    rw [expected_counts_eq_foldl d total htot]
    constructor
    · intro a
      rw [foldl_upsert_keys]
      simp
    · intro hnd x hx
      exact foldl_upsert_nodup _ d.items [] x hx hnd
  · intro h
    unfold WeightedDistribution.get_expected_counts
    show (if d.get_normalized_weights.isEmpty then ([] : List (String × Int))
      else (d.items.zip d.get_normalized_weights).foldl
        (fun counts p => upsert counts p.1.id (roundHalfEven (p.2 * total))) []) = _
    rw [if_pos (by simp [List.isEmpty_iff, normalized_eq_nil_iff, h])]

/-- Witness for C6 at concrete distributions. -/
theorem expected_counts_spec_witness :
    ((∀ a, a ∈ (demoDist.get_expected_counts 10).map Prod.fst ↔
        a ∈ demoDist.items.map (fun x => x.id)) ∧
      ((demoDist.items.map (fun x => x.id)).Nodup → ∀ x ∈ demoDist.items,
        dictFind (demoDist.get_expected_counts 10) x.id
          = some (roundHalfEven (x.weight / demoDist.totalWeight * 10)))) ∧
    zeroDist.get_expected_counts 10 = [] :=
  ⟨(expected_counts_spec demoDist 10).1 (by
      norm_num [demoDist, WeightedDistribution.totalWeight, DistributionItem.init]),
   (expected_counts_spec zeroDist 10).2 (by
      norm_num [zeroDist, WeightedDistribution.totalWeight, DistributionItem.init])⟩
